import Mathlib

/-!
Shallow embedding of the rule-based atom-typing engine of
src/mosdef_gomc/tools/parameterize/atomtyper.py.

The module-level globals of the source (rule_number_to_rule, rule_map,
neighbor_types_map) are modelled as explicit arguments threaded through the
functions; warnings issued through warnings.warn are modelled as a collected
list of structured Warning values; assertion failures and the KeyError of
run_rule are modelled with Except String.
-/

namespace MosdefAtomtyper

/-- Modelled from the spec: the OrderedSet of mbuild.orderedset (a module of
this repository that is not under src/). Per the spec it is a growable set
with deterministic (insertion) order, so it is modelled as a duplicate-free
list; add appends a missing element at the end. -/
def osAdd (s : List String) (x : String) : List String :=
  if x ∈ s then s else s ++ [x]

/-- Modelled from the spec: OrderedSet difference (whitelist - blacklist),
the set difference keeping the order of the left operand. -/
def osDiff (s t : List String) : List String :=
  s.filter (fun x => decide (x ∉ t))

/-- The value stored under extras atomtype: either a one-element list
[atomtype[0]] or the comma-joined string of the remainder. -/
inductive AtomtypeVal where
  | listOne (t : String)
  | commaJoined (s : String)
deriving DecidableEq

/-- Modelled from the spec: the Atom of the mbuild Compound (repository code
not under src/), reduced to what the engine reads: kind (element symbol, or
the sentinel G for a port), the kinds of its bonded neighbors (one entry per
bond, shared by atom.neighbors and atom.bonds of the source), and the extras
slots whitelist, blacklist and atomtype, absent (none) until written. aid
models object identity (the key of neighbor_types_map). -/
structure Atom where
  aid : Nat
  kind : String
  neighbors : List String
  whitelist : Option (List String) := none
  blacklist : Option (List String) := none
  atomtype : Option AtomtypeVal := none
deriving DecidableEq

/-- Read the whitelist slot (the engine only reads it after prepare). -/
def getWl (a : Atom) : List String := a.whitelist.getD []

/-- Read the blacklist slot (the engine only reads it after prepare). -/
def getBl (a : Atom) : List String := a.blacklist.getD []

/-- The warnings the module issues via warnings.warn, with the data each
format string interpolates. -/
inductive Warning where
  | noRuleForNeighborCount (n : Nat) (kind : String)
  | noRuleForKind (kind : String)
  | maxIterReached
  | multipleOrNoTypes (index : Nat) (kind : String) (remainder : List String)
  | ruleNoElement (ruleNumber : String)
  | ruleNoNeighborCount (ruleNumber : String)
  | unconnected (element : Option String) (pattern : List String)
  | notDAG (element : Option String) (pattern : List String)
  | multipleSinks (element : Option String) (pattern : List String) (sinks : List String)
deriving DecidableEq

/-- The rule decorators (RuleDecorator subclasses) as declared data: the
guards Element, NeighborCount, NeighborsExactly, NeighborsAtLeast,
NeighborsAtMost, and the effects Whitelist and Blacklist (whose stored
rule_numbers are already strings, as __init__ normalizes them). -/
inductive Dec where
  | element (t : String)
  | neighborCount (n : Nat)
  | neighborsExactly (t : String) (n : Nat)
  | neighborsAtLeast (t : String) (n : Nat)
  | neighborsAtMost (t : String) (n : Nat)
  | whitelistEff (ids : List String)
  | blacklistEff (ids : List String)

/-- A catalogue rule: its decorator chain in source order (outermost first,
the order get_decorator_objects_by_type recovers) around the innermost
undecorated function, an externally supplied predicate on the atom. -/
structure Rule where
  decs : List Dec
  base : Atom → Bool

/-- rule_number_to_rule: the catalogue as an association list keyed by the
rule number string. -/
abbrev Catalogue := List (String × Rule)

def catLookup (cat : Catalogue) (rid : String) : Option Rule :=
  match cat with
  | [] => none
  | (k, r) :: rest => if k == rid then some r else catLookup rest rid

/-- Python dict assignment: replace the value of an existing key, else add. -/
def catSet (cat : Catalogue) (rid : String) (r : Rule) : Catalogue :=
  match cat with
  | [] => [(rid, r)]
  | (k, r0) :: rest => if k == rid then (k, r) :: rest else (k, r0) :: catSet rest rid r

/-- dict.update semantics of loading the opls_* functions into the
pre-existing global rule_number_to_rule. -/
def catMerge (cat new : Catalogue) : Catalogue :=
  new.foldl (fun c p => catSet c p.1 p.2) cat

/-- The global neighbor_types_map: atom identity to its cached tally. -/
abbrev NTMap := List (Nat × List (String × Nat))

def ntLookup (m : NTMap) (aid : Nat) : Option (List (String × Nat)) :=
  match m with
  | [] => none
  | (k, t) :: rest => if k == aid then some t else ntLookup rest aid

/-- One step of building the defaultdict tally: neighbors[kind] += 1. -/
def tallyAdd (t : List (String × Nat)) (k : String) : List (String × Nat) :=
  match t with
  | [] => [(k, 1)]
  | (k0, n) :: rest => if k0 == k then (k0, n + 1) :: rest else (k0, n) :: tallyAdd rest k

/-- The tally computed from the bonds: a key is present iff that neighbor
kind occurs (so a present key always has a count of at least one). -/
def computeTally (bondKinds : List String) : List (String × Nat) :=
  bondKinds.foldl tallyAdd []

def tallyLookup (t : List (String × Nat)) (k : String) : Option Nat :=
  match t with
  | [] => none
  | (k0, n) :: rest => if k0 == k then some n else tallyLookup rest k

/-- neighbor_types: return the cached tally if the atom is already a key of
neighbor_types_map, else compute it from the bonds and insert it. -/
def neighbor_types (m : NTMap) (aid : Nat) (bondKinds : List String) :
    List (String × Nat) × NTMap :=
  match ntLookup m aid with
  | some t => (t, m)
  | none =>
    let t := computeTally bondKinds
    (t, m ++ [(aid, t)])

/-- Whitelist.whitelist: add each stored rule number to the whitelist. -/
def addWl (a : Atom) (ids : List String) : Atom :=
  { a with whitelist := some (ids.foldl osAdd (getWl a)) }

/-- Blacklist.blacklist: add each stored rule number to the blacklist. -/
def addBl (a : Atom) (ids : List String) : Atom :=
  { a with blacklist := some (ids.foldl osAdd (getBl a)) }

/-- Evaluate the decorator chain of a rule on an atom, outermost decorator
first, the way the stacked wrapped closures run: each guard short-circuits
to a falsy result; the effect decorators call the inner chain and fire only
on a truthy result. The neighbor composition guards consult the tally via
neighbor_types, threading the global cache. -/
def runChain (m : NTMap) (ds : List Dec) (base : Atom → Bool) (a : Atom) :
    Bool × Atom × NTMap :=
  match ds with
  | [] => (base a, a, m)
  | d :: rest =>
    match d with
    | Dec.element t =>
      if a.kind == t then runChain m rest base a else (false, a, m)
    | Dec.neighborCount n =>
      if a.neighbors.length == n then runChain m rest base a else (false, a, m)
    | Dec.neighborsExactly t n =>
      let p := neighbor_types m a.aid a.neighbors
      match tallyLookup p.1 t with
      | some c => if c == n then runChain p.2 rest base a else (false, a, p.2)
      | none => (false, a, p.2)
    | Dec.neighborsAtLeast t n =>
      let p := neighbor_types m a.aid a.neighbors
      match tallyLookup p.1 t with
      | some c => if n ≤ c then runChain p.2 rest base a else (false, a, p.2)
      | none => (false, a, p.2)
    | Dec.neighborsAtMost t n =>
      let p := neighbor_types m a.aid a.neighbors
      match tallyLookup p.1 t with
      | some c => if c ≤ n then runChain p.2 rest base a else (false, a, p.2)
      | none => (false, a, p.2)
    | Dec.whitelistEff ids =>
      let r := runChain m rest base a
      if r.1 then (true, addWl r.2.1 ids, r.2.2) else r
    | Dec.blacklistEff ids =>
      let r := runChain m rest base a
      if r.1 then (true, addBl r.2.1 ids, r.2.2) else r

/-- run_rule: skip a rule whose id is already whitelisted on the atom, else
look the rule up (KeyError modelled as the error case) and execute it. -/
def run_rule (cat : Catalogue) (m : NTMap) (a : Atom) (rid : String) :
    Except String (Atom × NTMap) :=
  if rid ∈ getWl a then Except.ok (a, m)
  else
    match catLookup cat rid with
    | none => Except.error ("Rule for " ++ rid ++ " not implemented")
    | some r =>
      let res := runChain m r.decs r.base a
      Except.ok (res.2.1, res.2.2)

/-- rule_map: element type to neighbor count to rule numbers. The keys are
options because build_rule_map indexes a rule with a missing guard under the
Python value None. -/
abbrev RuleMap := List (Option String × List (Option Nat × List String))

def bucketAdd (l : List (Option Nat × List String)) (nc : Option Nat) (rn : String) :
    List (Option Nat × List String) :=
  match l with
  | [] => [(nc, [rn])]
  | (k, rs) :: rest => if k == nc then (k, rs ++ [rn]) :: rest else (k, rs) :: bucketAdd rest nc rn

def rmAdd (rm : RuleMap) (et : Option String) (nc : Option Nat) (rn : String) : RuleMap :=
  match rm with
  | [] => [(et, [(nc, [rn])])]
  | (k, b) :: rest => if k == et then (k, bucketAdd b nc rn) :: rest else (k, b) :: rmAdd rest et nc rn

def rmLookup (rm : RuleMap) (et : Option String) : Option (List (Option Nat × List String)) :=
  match rm with
  | [] => none
  | (k, b) :: rest => if k == et then some b else rmLookup rest et

def bucketLookup (b : List (Option Nat × List String)) (nc : Option Nat) : Option (List String) :=
  match b with
  | [] => none
  | (k, rs) :: rest => if k == nc then some rs else bucketLookup rest nc

/-- The element and neighbor count guards of a rule as build_rule_map reads
them off the decorator chain: the last decorator of each kind wins. -/
def guardsOf (r : Rule) : Option String × Option Nat :=
  r.decs.foldl
    (fun p d =>
      match d with
      | Dec.element t => (some t, p.2)
      | Dec.neighborCount n => (p.1, some n)
      | _ => p)
    (none, none)

/-- Python truthiness of the element guard: None and the empty string are
falsy, so both draw the missing-element warning. -/
def etFalsy : Option String → Bool
  | none => true
  | some s => s == ""

/-- Python truthiness of the neighbor count: None and 0 are falsy. -/
def ncFalsy : Option Nat → Bool
  | none => true
  | some n => n == 0

/-- build_rule_map: iterate the catalogue, warn on a falsy element type or
neighbor count, and append the rule number under its
(element type, neighbor count) key regardless, extending the pre-existing
global rule_map rm0. -/
def build_rule_map (rm0 : RuleMap) (cat : Catalogue) : RuleMap × List Warning :=
  match cat with
  | [] => (rm0, [])
  | (rn, r) :: rest =>
    let g := guardsOf r
    let ws1 := if etFalsy g.1 then [Warning.ruleNoElement rn] else []
    let ws2 := if ncFalsy g.2 then ws1 ++ [Warning.ruleNoNeighborCount rn] else ws1
    let p := build_rule_map (rmAdd rm0 g.1 g.2 rn) rest
    (p.1, ws2 ++ p.2)

/-- prepare: give the atom fresh empty whitelist and blacklist slots. -/
def prepare (a : Atom) : Atom :=
  { a with whitelist := some [], blacklist := some [] }

/-- Apply every candidate rule of a bucket to the atom in bucket order. -/
def foldRules (cat : Catalogue) (m : NTMap) (a : Atom) (rids : List String) :
    Except String (Atom × NTMap) :=
  match rids with
  | [] => Except.ok (a, m)
  | rid :: rest =>
    match run_rule cat m a rid with
    | Except.error e => Except.error e
    | Except.ok p => foldRules cat p.2 p.1 rest

/-- The body of the iteration loop for one atom: skip ports (kind G), warn
when the kind or the neighbor count has no bucket, else run the bucket. -/
def processAtom (cat : Catalogue) (rm : RuleMap) (m : NTMap) (a : Atom) :
    Except String (Atom × NTMap × List Warning) :=
  if a.kind == "G" then Except.ok (a, m, [])
  else
    match rmLookup rm (some a.kind) with
    | none => Except.ok (a, m, [Warning.noRuleForKind a.kind])
    | some buckets =>
      match bucketLookup buckets (some a.neighbors.length) with
      | none => Except.ok (a, m, [Warning.noRuleForNeighborCount a.neighbors.length a.kind])
      | some rids =>
        match foldRules cat m a rids with
        | Except.error e => Except.error e
        | Except.ok p => Except.ok (p.1, p.2, [])

/-- One full round over the atoms in order. -/
def roundOnce (cat : Catalogue) (rm : RuleMap) (m : NTMap) (atoms : List Atom) :
    Except String (List Atom × NTMap × List Warning) :=
  match atoms with
  | [] => Except.ok ([], m, [])
  | a :: rest =>
    match processAtom cat rm m a with
    | Except.error e => Except.error e
    | Except.ok p =>
      match roundOnce cat rm p.2.1 rest with
      | Except.error e => Except.error e
      | Except.ok q => Except.ok (p.1 :: q.1, q.2.1, p.2.2 ++ q.2.2)

def atomSize (a : Atom) : Nat := (getWl a).length + (getBl a).length

/-- old_len: accumulated over every yielded atom before its rules run. -/
def allSum (atoms : List Atom) : Nat := (atoms.map atomSize).sum

/-- new_len: accumulated after the rules, which the continue on kind G
skips, so ports never contribute to it. -/
def newSum (atoms : List Atom) : Nat :=
  ((atoms.filter (fun a => !(a.kind == "G"))).map atomSize).sum

/-- The for/else iteration loop: up to fuel more rounds (max_iter = 10 at
the call site); stop as soon as old_len equals new_len; falling off the end
of the range issues the maximum-iterations warning. -/
def runRounds (cat : Catalogue) (rm : RuleMap) (m : NTMap) (atoms : List Atom) :
    Nat → Except String (List Atom × NTMap × List Warning)
  | 0 => Except.ok (atoms, m, [Warning.maxIterReached])
  | Nat.succ fuel =>
    match roundOnce cat rm m atoms with
    | Except.error e => Except.error e
    | Except.ok p =>
      if allSum atoms == newSum p.1 then Except.ok p
      else
        match runRounds cat rm p.2.1 p.1 fuel with
        | Except.error e => Except.error e
        | Except.ok q => Except.ok (q.1, q.2.1, p.2.2 ++ q.2.2)

def joinComma : List String → String
  | [] => ""
  | [x] => x
  | x :: rest => x ++ ", " ++ joinComma rest

/-- The resolution step for the atom at index i: the whitelist minus the
blacklist; a singleton is recorded as the resolved type, anything else is
warned about with the index, the kind and the remainder, and recorded
comma-joined. -/
def resolveOne (i : Nat) (a : Atom) : Atom × List Warning :=
  let t := osDiff (getWl a) (getBl a)
  match t with
  | [x] => ({ a with atomtype := some (AtomtypeVal.listOne x) }, [])
  | _ =>
    ({ a with atomtype := some (AtomtypeVal.commaJoined (joinComma t)) },
     [Warning.multipleOrNoTypes i a.kind t])

/-- The enumerate loop over compound.atoms. -/
def resolveFrom (i : Nat) (atoms : List Atom) : List Atom × List Warning :=
  match atoms with
  | [] => ([], [])
  | a :: rest =>
    let p := resolveOne i a
    let q := resolveFrom (i + 1) rest
    (p.1 :: q.1, p.2 ++ q.2)

/-! ## The consistency analyzer (sanitize) -/

/-- The first pass of sanitize over one rule: walk the decorators, and on
each Element decorator first run check_duplicate_element (the assertion that
the running element type is still None, modelled as the error case), then
record the type and add it to the supported set. -/
def elementsOfRule (rn : String) (ds : List Dec) (et : Option String) (acc : List String) :
    Except String (Option String × List String) :=
  match ds with
  | [] => Except.ok (et, acc)
  | Dec.element t :: rest =>
    match et with
    | some _ => Except.error ("Duplicate element type decorators on rule " ++ rn)
    | none => elementsOfRule rn rest (some t) (osAdd acc t)
  | _ :: rest => elementsOfRule rn rest et acc

/-- Collect the supported elements over the whole catalogue. -/
def collectElements (cat : Catalogue) (acc : List String) : Except String (List String) :=
  match cat with
  | [] => Except.ok acc
  | (rn, r) :: rest =>
    match elementsOfRule rn r.decs none acc with
    | Except.error e => Except.error e
    | Except.ok p => collectElements rest p.2

/-- Lexicographic comparison on the character values, the ascending order of
the Python sort of supported_elements. -/
def charListLe : List Char → List Char → Bool
  | [], _ => true
  | _ :: _, [] => false
  | a :: as, b :: bs =>
    if a.val < b.val then true
    else if b.val < a.val then false
    else charListLe as bs

def strLeB (a b : String) : Bool := charListLe a.data b.data

def insertSorted (x : String) : List String → List String
  | [] => [x]
  | y :: ys => if strLeB x y then x :: y :: ys else y :: insertSorted x ys

def sortStrings (l : List String) : List String := l.foldr insertSorted []

/-- The second pass of sanitize over one rule: the last Element decorator
wins unchecked, while each NeighborCount decorator is first checked by
check_duplicate_neighbor_count (assertion modelled as the error case). -/
def guardsChecked (rn : String) (ds : List Dec) (et : Option String) (nc : Option Nat) :
    Except String (Option String × Option Nat) :=
  match ds with
  | [] => Except.ok (et, nc)
  | Dec.element t :: rest => guardsChecked rn rest (some t) nc
  | Dec.neighborCount n :: rest =>
    match nc with
    | some _ => Except.error ("Duplicate neighbor count decorators on rule " ++ rn)
    | none => guardsChecked rn rest et (some n)
  | _ :: rest => guardsChecked rn rest et nc

def suffixes : List String → List (List String)
  | [] => [[]]
  | x :: xs => (x :: xs) :: suffixes xs

/-- combinations_with_replacement over the sorted supported elements: every
nondecreasing selection of the given length, in the itertools order. -/
def cwr : Nat → List String → List (List String)
  | 0, _ => [[]]
  | Nat.succ n, l =>
    (suffixes l).flatMap
      (fun t =>
        match t with
        | [] => []
        | x :: xs => (cwr n (x :: xs)).map (fun p => x :: p))

/-- Does the pattern survive every neighbor composition decorator of the
rule (the complement of the removed_patterns accumulation)? -/
def patternOK (ds : List Dec) (p : List String) : Bool :=
  ds.all
    (fun d =>
      match d with
      | Dec.neighborsExactly t n => p.count t == n
      | Dec.neighborsAtLeast t n => decide (n ≤ p.count t)
      | Dec.neighborsAtMost t n => decide (p.count t ≤ n)
      | _ => true)

/-- A rule_matches key: (element type, neighbor pattern). The element is an
option because a rule with no Element decorator is keyed under None. -/
abbrev GroupKey := Option String × List String

/-- rule_matches insertion: start a singleton set for a fresh key, else add
the rule number to the set under the key. -/
def matchesAdd (ms : List (GroupKey × List String)) (k : GroupKey) (rn : String) :
    List (GroupKey × List String) :=
  match ms with
  | [] => [(k, [rn])]
  | (k0, rs) :: rest => if k0 == k then (k0, osAdd rs rn) :: rest else (k0, rs) :: matchesAdd rest k rn

/-- Build rule_matches: for every rule, every surviving pattern of its
neighbor count over the supported elements maps to its rule number. A rule
with no NeighborCount decorator leaves neighbor_count as None, on which
combinations_with_replacement raises a TypeError (the error case). -/
def buildMatches (cat : Catalogue) (sup : List String)
    (ms : List (GroupKey × List String)) : Except String (List (GroupKey × List String)) :=
  match cat with
  | [] => Except.ok ms
  | (rn, r) :: rest =>
    match guardsChecked rn r.decs none none with
    | Except.error e => Except.error e
    | Except.ok g =>
      match g.2 with
      | none => Except.error ("TypeError: combinations_with_replacement on rule " ++ rn)
      | some nc =>
        let pats := (cwr nc sup).filter (patternOK r.decs)
        buildMatches rest sup (pats.foldl (fun acc p => matchesAdd acc (g.1, p) rn) ms)

/-- The union of the Blacklist decorator rule numbers of a rule, in
insertion order (the blacklisted_rules set of sanitize). -/
def blacklistIdsOf (r : Rule) : List String :=
  r.decs.foldl
    (fun acc d =>
      match d with
      | Dec.blacklistEff ids => ids.foldl osAdd acc
      | _ => acc)
    []

/-- The directed edges of the interaction graph of one group: one edge from
each rule of the group to each rule number it blacklists. A group rule is
always a key of the catalogue, so the lookup never misses on the paths
sanitize builds. -/
def groupEdges (cat : Catalogue) (rules : List String) : List (String × String) :=
  rules.flatMap
    (fun rn =>
      match catLookup cat rn with
      | none => []
      | some r => (blacklistIdsOf r).map (fun b => (rn, b)))

/-- The nodes of a networkx graph built by add_edge calls, in first-touch
order: a node exists only if some edge touches it. -/
def nodesOfEdges (es : List (String × String)) : List String :=
  es.foldl (fun acc e => osAdd (osAdd acc e.1) e.2) []

def succs (es : List (String × String)) (n : String) : List String :=
  (es.filter (fun e => e.1 == n)).map (fun e => e.2)

/-- Fueled breadth-first closure: everything reachable from the frontier,
the frontier included. -/
def reachAux (es : List (String × String)) : Nat → List String → List String → List String
  | 0, _, acc => acc
  | Nat.succ fuel, frontier, acc =>
    match frontier.filter (fun x => decide (x ∉ acc)) with
    | [] => acc
    | fresh => reachAux es fuel (fresh.flatMap (succs es)) (fresh.foldl osAdd acc)

def dirReach (es : List (String × String)) (start : List String) : List String :=
  reachAux es ((nodesOfEdges es).length + 1) start []

def undirEdges (es : List (String × String)) : List (String × String) :=
  es ++ es.map (fun e => (e.2, e.1))

/-- nx.is_connected of the undirected view: every node reachable from the
first node. -/
def isConnectedB (es : List (String × String)) : Bool :=
  match nodesOfEdges es with
  | [] => true
  | n :: _ => (nodesOfEdges es).all (fun v => (dirReach (undirEdges es) [n]).contains v)

/-- nx.descendants: the nodes reachable from n along at least one edge,
n itself excluded. -/
def descendants (es : List (String × String)) (n : String) : List String :=
  (dirReach es (succs es n)).filter (fun v => !(v == n))

/-- Not nx.is_directed_acyclic_graph: some node reaches itself. -/
def hasCycleB (es : List (String × String)) : Bool :=
  (nodesOfEdges es).any (fun n => (dirReach es (succs es n)).contains n)

/-- The sink list of sanitize: the graph nodes with no descendants, in node
order. -/
def groupSinks (es : List (String × String)) : List String :=
  (nodesOfEdges es).filter (fun n => (descendants es n).isEmpty)

/-- The per-group checks of sanitize: ignore a group matched by fewer than
two rules, raise the networkx null-graph exception when the group produced
no edges, then flag disconnection, a cycle, and multiple sinks, each via
draw_rule_graph and warn. -/
def groupWarnings (cat : Catalogue) (key : GroupKey) (rules : List String) :
    Except String (List Warning) :=
  if rules.length < 2 then Except.ok []
  else
    let es := groupEdges cat rules
    match nodesOfEdges es with
    | [] => Except.error "Connectivity is undefined for the null graph."
    | _ =>
      let w1 := if isConnectedB es then [] else [Warning.unconnected key.1 key.2]
      let w2 := if hasCycleB es then [Warning.notDAG key.1 key.2] else []
      let sinks := groupSinks es
      let w3 := if 1 < sinks.length then [Warning.multipleSinks key.1 key.2 sinks] else []
      Except.ok (w1 ++ w2 ++ w3)

def sanitizeGroups (cat : Catalogue) : List (GroupKey × List String) → Except String (List Warning)
  | [] => Except.ok []
  | (k, rs) :: rest =>
    match groupWarnings cat k rs with
    | Except.error e => Except.error e
    | Except.ok w =>
      match sanitizeGroups cat rest with
      | Except.error e => Except.error e
      | Except.ok ws => Except.ok (w ++ ws)

/-- sanitize: collect the supported elements (with the duplicate-element
assertion), build rule_matches (with the duplicate-neighbor-count
assertion), and run the graph checks on every group. -/
def sanitize (cat : Catalogue) : Except String (List Warning) :=
  match collectElements cat [] with
  | Except.error e => Except.error e
  | Except.ok sup =>
    match buildMatches cat (sortStrings sup) [] with
    | Except.error e => Except.error e
    | Except.ok ms => sanitizeGroups cat ms

/-! ## The entry point -/

/-- The body of find_atomtypes after the catalogue is chosen: build the rule
map over the pre-existing global rm0, run sanitize when debugging, prepare
every yielded atom (ports included), iterate up to 10 rounds, and resolve
every atom of compound.atoms. Modelled from the spec: compound.yield_atoms
and compound.atoms (mbuild Compound, not under src/) both traverse every
atom of the structure, ports included - the explicit kind G checks of the
engine presuppose it - so both loops run over the one list atoms. -/
def typingPipeline (cat : Catalogue) (rm0 : RuleMap) (m0 : NTMap) (atoms : List Atom)
    (debug : Bool) : Except String (List Atom × NTMap × List Warning) :=
  let b := build_rule_map rm0 cat
  match if debug then sanitize cat else Except.ok [] with
  | Except.error e => Except.error e
  | Except.ok wsS =>
    match runRounds cat b.1 m0 (atoms.map prepare) 10 with
    | Except.error e => Except.error e
    | Except.ok p =>
      let r := resolveFrom 0 p.1
      Except.ok (r.1, p.2.1, b.2 ++ wsS ++ p.2.2 ++ r.2)

/-- find_atomtypes: only the identifier OPLS-AA loads the external catalogue
oplsaa into the global rule_number_to_rule (dict.update); any other
identifier leaves the globals as they are and the run proceeds with them.
No branch raises on an unrecognized identifier. -/
def find_atomtypes (forcefield : String) (oplsaa cat0 : Catalogue) (rm0 : RuleMap)
    (m0 : NTMap) (atoms : List Atom) (debug : Bool) :
    Except String (List Atom × NTMap × List Warning) :=
  typingPipeline (if forcefield == "OPLS-AA" then catMerge cat0 oplsaa else cat0)
    rm0 m0 atoms debug

/-! ## check_atom -/

/-- A rule identifier as check_atom receives it, before str() normalization:
either already a string or a number. -/
inductive RuleId where
  | str (s : String)
  | num (n : Nat)
deriving DecidableEq

def ridStr : RuleId → String
  | RuleId.str s => s
  | RuleId.num n => toString n

/-- The input_rule_ids argument: a single identifier, or a list, tuple or
set of them. -/
inductive RuleIdInput where
  | one (r : RuleId)
  | many (rs : List RuleId)
deriving DecidableEq

def inputIds : RuleIdInput → List RuleId
  | RuleIdInput.one r => [r]
  | RuleIdInput.many rs => rs

/-- check_atom: build the set of stringified identifiers, return True on the
first one found in the whitelist, and fall off the end (None) otherwise. -/
def check_atom (a : Atom) (input : RuleIdInput) : Option Bool :=
  let ruleIds := (inputIds input).foldl (fun s r => osAdd s (ridStr r)) []
  if ruleIds.any (fun r => (getWl a).contains r) then some true else none

/-! ## Growth of the ordered sets and of atoms -/

/-- The new list is the old one with entries appended at the end. -/
def Grows (old new : List String) : Prop := ∃ t, new = old ++ t

theorem grows_self (l : List String) : Grows l l := ⟨[], by simp⟩

theorem grows_trans {a b c : List String} (h1 : Grows a b) (h2 : Grows b c) : Grows a c := by
  obtain ⟨t1, rfl⟩ := h1
  obtain ⟨t2, rfl⟩ := h2
  exact ⟨t1 ++ t2, by simp⟩

theorem mem_osAdd {s : List String} {x y : String} : y ∈ osAdd s x ↔ y ∈ s ∨ y = x := by
  unfold osAdd
  by_cases h : x ∈ s
  · simp only [if_pos h]
    constructor
    · exact Or.inl
    · rintro (hy | rfl)
      · exact hy
      · exact h
  · simp [if_neg h]

theorem grows_osAdd (s : List String) (x : String) : Grows s (osAdd s x) := by
  unfold osAdd
  split
  · exact grows_self s
  · exact ⟨[x], rfl⟩

theorem grows_foldl_osAdd (ids : List String) : ∀ s, Grows s (ids.foldl osAdd s) := by
  induction ids with
  | nil => intro s; exact grows_self s
  | cons x rest ih =>
    intro s
    exact grows_trans (grows_osAdd s x) (ih (osAdd s x))

/-- The atom after a rule application: same identity, kind and bonds, and
both eligibility lists only extended. -/
def AtomGrows (a b : Atom) : Prop :=
  b.aid = a.aid ∧ b.kind = a.kind ∧ b.neighbors = a.neighbors ∧
    Grows (getWl a) (getWl b) ∧ Grows (getBl a) (getBl b)

theorem atomGrows_self (a : Atom) : AtomGrows a a :=
  ⟨rfl, rfl, rfl, grows_self _, grows_self _⟩

theorem atomGrows_trans {a b c : Atom} (h1 : AtomGrows a b) (h2 : AtomGrows b c) :
    AtomGrows a c := by
  obtain ⟨i1, k1, n1, w1, l1⟩ := h1
  obtain ⟨i2, k2, n2, w2, l2⟩ := h2
  exact ⟨i2.trans i1, k2.trans k1, n2.trans n1, grows_trans w1 w2, grows_trans l1 l2⟩

theorem atomGrows_addWl (a : Atom) (ids : List String) : AtomGrows a (addWl a ids) :=
  ⟨rfl, rfl, rfl, grows_foldl_osAdd ids (getWl a), grows_self _⟩

theorem atomGrows_addBl (a : Atom) (ids : List String) : AtomGrows a (addBl a ids) :=
  ⟨rfl, rfl, rfl, grows_self _, grows_foldl_osAdd ids (getBl a)⟩

/-- The neighbor tally cache only gains entries. -/
def MGrows (m new : NTMap) : Prop := ∃ t, new = m ++ t

theorem mGrows_self (m : NTMap) : MGrows m m := ⟨[], by simp⟩

theorem mGrows_trans {a b c : NTMap} (h1 : MGrows a b) (h2 : MGrows b c) : MGrows a c := by
  obtain ⟨t1, rfl⟩ := h1
  obtain ⟨t2, rfl⟩ := h2
  exact ⟨t1 ++ t2, by simp⟩

theorem mGrows_neighbor_types (m : NTMap) (aid : Nat) (bonds : List String) :
    MGrows m (neighbor_types m aid bonds).2 := by
  unfold neighbor_types
  cases ntLookup m aid
  · exact ⟨[(aid, computeTally bonds)], rfl⟩
  · exact mGrows_self m

theorem runChain_spec (ds : List Dec) :
    ∀ (m : NTMap) (base : Atom → Bool) (a : Atom),
      AtomGrows a (runChain m ds base a).2.1 ∧ MGrows m (runChain m ds base a).2.2 := by
  induction ds with
  | nil => intro m base a; exact ⟨atomGrows_self a, mGrows_self m⟩
  | cons d rest ih =>
    intro m base a
    cases d with
    | element t =>
      simp only [runChain]
      split
      · exact ih m base a
      · exact ⟨atomGrows_self a, mGrows_self m⟩
    | neighborCount n =>
      simp only [runChain]
      split
      · exact ih m base a
      · exact ⟨atomGrows_self a, mGrows_self m⟩
    | neighborsExactly t n =>
      simp only [runChain]
      split
      · split
        · obtain ⟨hg, hm⟩ := ih (neighbor_types m a.aid a.neighbors).2 base a
          exact ⟨hg, mGrows_trans (mGrows_neighbor_types m a.aid a.neighbors) hm⟩
        · exact ⟨atomGrows_self a, mGrows_neighbor_types m a.aid a.neighbors⟩
      · exact ⟨atomGrows_self a, mGrows_neighbor_types m a.aid a.neighbors⟩
    | neighborsAtLeast t n =>
      simp only [runChain]
      split
      · split
        · obtain ⟨hg, hm⟩ := ih (neighbor_types m a.aid a.neighbors).2 base a
          exact ⟨hg, mGrows_trans (mGrows_neighbor_types m a.aid a.neighbors) hm⟩
        · exact ⟨atomGrows_self a, mGrows_neighbor_types m a.aid a.neighbors⟩
      · exact ⟨atomGrows_self a, mGrows_neighbor_types m a.aid a.neighbors⟩
    | neighborsAtMost t n =>
      simp only [runChain]
      split
      · split
        · obtain ⟨hg, hm⟩ := ih (neighbor_types m a.aid a.neighbors).2 base a
          exact ⟨hg, mGrows_trans (mGrows_neighbor_types m a.aid a.neighbors) hm⟩
        · exact ⟨atomGrows_self a, mGrows_neighbor_types m a.aid a.neighbors⟩
      · exact ⟨atomGrows_self a, mGrows_neighbor_types m a.aid a.neighbors⟩
    | whitelistEff ids =>
      simp only [runChain]
      split
      · obtain ⟨hg, hm⟩ := ih m base a
        exact ⟨atomGrows_trans hg (atomGrows_addWl _ ids), hm⟩
      · exact ih m base a
    | blacklistEff ids =>
      simp only [runChain]
      split
      · obtain ⟨hg, hm⟩ := ih m base a
        exact ⟨atomGrows_trans hg (atomGrows_addBl _ ids), hm⟩
      · exact ih m base a

/-! ## run_rule, foldRules, processAtom, roundOnce -/

theorem run_rule_mem_whitelist {cat : Catalogue} {m : NTMap} {a : Atom} {rid : String}
    (h : rid ∈ getWl a) : run_rule cat m a rid = Except.ok (a, m) := by
  unfold run_rule
  rw [if_pos h]

theorem run_rule_ok_spec {cat : Catalogue} {m : NTMap} {a : Atom} {rid : String}
    {b : Atom} {m' : NTMap} (h : run_rule cat m a rid = Except.ok (b, m')) :
    AtomGrows a b ∧ MGrows m m' := by
  unfold run_rule at h
  split at h
  · obtain ⟨rfl, rfl⟩ := Prod.mk.injEq .. ▸ (Except.ok.injEq .. ▸ h)
    exact ⟨atomGrows_self a, mGrows_self m⟩
  · split at h
    · exact absurd h (by simp)
    · obtain ⟨rfl, rfl⟩ := Prod.mk.injEq .. ▸ (Except.ok.injEq .. ▸ h)
      exact runChain_spec _ m _ a

theorem run_rule_isOk {cat : Catalogue} {m : NTMap} {a : Atom} {rid : String}
    (h : (catLookup cat rid).isSome) : ∃ p, run_rule cat m a rid = Except.ok p := by
  unfold run_rule
  split
  · exact ⟨(a, m), rfl⟩
  · split
    · next heq => rw [heq] at h; exact absurd h (by simp)
    · exact ⟨_, rfl⟩

theorem foldRules_ok_spec {cat : Catalogue} (rids : List String) :
    ∀ (m : NTMap) (a : Atom) {b : Atom} {m' : NTMap},
      foldRules cat m a rids = Except.ok (b, m') → AtomGrows a b ∧ MGrows m m' := by
  induction rids with
  | nil =>
    intro m a b m' h
    simp only [foldRules] at h
    obtain ⟨rfl, rfl⟩ := Prod.mk.injEq .. ▸ (Except.ok.injEq .. ▸ h)
    exact ⟨atomGrows_self a, mGrows_self m⟩
  | cons rid rest ih =>
    intro m a b m' h
    simp only [foldRules] at h
    split at h
    · exact absurd h (by simp)
    · next p heq =>
      have heq2 : run_rule cat m a rid = Except.ok (p.1, p.2) := by rw [heq]
      obtain ⟨h1, h2⟩ := run_rule_ok_spec heq2
      obtain ⟨h3, h4⟩ := ih p.2 p.1 h
      exact ⟨atomGrows_trans h1 h3, mGrows_trans h2 h4⟩

theorem foldRules_isOk {cat : Catalogue} (rids : List String)
    (hcov : ∀ rid ∈ rids, (catLookup cat rid).isSome) :
    ∀ (m : NTMap) (a : Atom), ∃ p, foldRules cat m a rids = Except.ok p := by
  induction rids with
  | nil => intro m a; exact ⟨(a, m), rfl⟩
  | cons rid rest ih =>
    intro m a
    obtain ⟨p, hp⟩ := run_rule_isOk (m := m) (a := a) (hcov rid (by simp))
    obtain ⟨q, hq⟩ := ih (fun r hr => hcov r (by simp [hr])) p.2 p.1
    refine ⟨q, ?_⟩
    simp only [foldRules]
    rw [hp]
    exact hq

/-- What an atom can fetch from the rule map. -/
def rmRules (rm : RuleMap) (k : String) (n : Nat) : List String :=
  match rmLookup rm (some k) with
  | none => []
  | some b => (bucketLookup b (some n)).getD []

/-- Every rule number any atom can fetch from the rule map resolves in the
catalogue (true of the globals the source maintains: rule_map is only ever
filled from keys of rule_number_to_rule, and neither ever shrinks). -/
def RmCovered (cat : Catalogue) (rm : RuleMap) : Prop :=
  ∀ k n rid, rid ∈ rmRules rm k n → (catLookup cat rid).isSome

theorem processAtom_ok_spec {cat : Catalogue} {rm : RuleMap} {m : NTMap} {a : Atom}
    {b : Atom} {m' : NTMap} {ws : List Warning}
    (h : processAtom cat rm m a = Except.ok (b, m', ws)) :
    AtomGrows a b ∧ MGrows m m' ∧ Warning.maxIterReached ∉ ws ∧
      (a.kind = "G" → b = a ∧ m' = m ∧ ws = []) := by
  unfold processAtom at h
  split at h
  · next hG =>
    obtain ⟨rfl, rfl, rfl⟩ := Prod.mk.injEq .. ▸ (Except.ok.injEq .. ▸ h)
    exact ⟨atomGrows_self a, mGrows_self m, by simp, fun _ => ⟨rfl, rfl, rfl⟩⟩
  · next hG =>
    have hkind : ¬ a.kind = "G" := by simpa using hG
    split at h
    · obtain ⟨rfl, rfl, rfl⟩ := Prod.mk.injEq .. ▸ (Except.ok.injEq .. ▸ h)
      exact ⟨atomGrows_self a, mGrows_self m, by simp, fun hk => absurd hk hkind⟩
    · split at h
      · obtain ⟨rfl, rfl, rfl⟩ := Prod.mk.injEq .. ▸ (Except.ok.injEq .. ▸ h)
        exact ⟨atomGrows_self a, mGrows_self m, by simp, fun hk => absurd hk hkind⟩
      · next rids0 hbl =>
        split at h
        · exact absurd h (by simp)
        · next p heq =>
          obtain ⟨rfl, rfl, rfl⟩ := Prod.mk.injEq .. ▸ (Except.ok.injEq .. ▸ h)
          have heq2 : foldRules cat m a rids0 = Except.ok (p.1, p.2) := by rw [heq]
          obtain ⟨h1, h2⟩ := foldRules_ok_spec _ m a heq2
          exact ⟨h1, h2, by simp, fun hk => absurd hk hkind⟩

theorem processAtom_isOk {cat : Catalogue} {rm : RuleMap} (hcov : RmCovered cat rm)
    (m : NTMap) (a : Atom) : ∃ p, processAtom cat rm m a = Except.ok p := by
  unfold processAtom
  split
  · exact ⟨_, rfl⟩
  · split
    · exact ⟨_, rfl⟩
    · next buckets hb =>
      split
      · exact ⟨_, rfl⟩
      · next rids hr =>
        have hrids : ∀ rid ∈ rids, (catLookup cat rid).isSome := by
          intro rid hrid
          refine hcov a.kind a.neighbors.length rid ?_
          unfold rmRules
          rw [hb]
          show rid ∈ (bucketLookup buckets (some a.neighbors.length)).getD []
          rw [hr]
          exact hrid
        obtain ⟨p, hp⟩ := foldRules_isOk rids hrids m a
        rw [hp]
        exact ⟨_, rfl⟩

theorem roundOnce_ok_spec {cat : Catalogue} {rm : RuleMap} (atoms : List Atom) :
    ∀ (m : NTMap) {res : List Atom} {m' : NTMap} {ws : List Warning},
      roundOnce cat rm m atoms = Except.ok (res, m', ws) →
      List.Forall₂ (fun a b => AtomGrows a b ∧ (a.kind = "G" → b = a)) atoms res ∧
        MGrows m m' ∧ Warning.maxIterReached ∉ ws := by
  induction atoms with
  | nil =>
    intro m res m' ws h
    simp only [roundOnce] at h
    obtain ⟨rfl, rfl, rfl⟩ := Prod.mk.injEq .. ▸ (Except.ok.injEq .. ▸ h)
    exact ⟨List.Forall₂.nil, mGrows_self m, by simp⟩
  | cons a rest ih =>
    intro m res m' ws h
    simp only [roundOnce] at h
    split at h
    · exact absurd h (by simp)
    · next p hp =>
      split at h
      · exact absurd h (by simp)
      · next q hq =>
        obtain ⟨rfl, rfl, rfl⟩ := Prod.mk.injEq .. ▸ (Except.ok.injEq .. ▸ h)
        have hp2 : processAtom cat rm m a = Except.ok (p.1, p.2.1, p.2.2) := by rw [hp]
        obtain ⟨g1, g2, g3, g4⟩ := processAtom_ok_spec hp2
        have hq2 : roundOnce cat rm p.2.1 rest = Except.ok (q.1, q.2.1, q.2.2) := by rw [hq]
        obtain ⟨f1, f2, f3⟩ := ih p.2.1 hq2
        refine ⟨List.Forall₂.cons ⟨g1, fun hk => ((g4 hk).1)⟩ f1, mGrows_trans g2 f2, ?_⟩
        simp only [List.mem_append]
        rintro (hw | hw)
        · exact g3 hw
        · exact f3 hw

theorem roundOnce_isOk {cat : Catalogue} {rm : RuleMap} (hcov : RmCovered cat rm)
    (atoms : List Atom) : ∀ (m : NTMap), ∃ p, roundOnce cat rm m atoms = Except.ok p := by
  induction atoms with
  | nil => intro m; exact ⟨_, rfl⟩
  | cons a rest ih =>
    intro m
    obtain ⟨p, hp⟩ := processAtom_isOk hcov m a
    obtain ⟨q, hq⟩ := ih p.2.1
    simp only [roundOnce, hp, hq]
    exact ⟨_, rfl⟩

/-! ## The iteration loop -/

/-- Port atoms carry empty eligibility lists: prepare establishes this and
every round preserves it, because the engine skips kind G. -/
def PortsEmpty (atoms : List Atom) : Prop :=
  ∀ a ∈ atoms, a.kind = "G" → getWl a = [] ∧ getBl a = []

theorem portsEmpty_pres :
    ∀ {atoms res : List Atom},
      List.Forall₂ (fun a b => AtomGrows a b ∧ (a.kind = "G" → b = a)) atoms res →
      PortsEmpty atoms → PortsEmpty res := by
  intro atoms res hf
  induction hf with
  | nil => intro _ b hb; simp at hb
  | @cons a1 b1 l1 l2 h1 h2 ih =>
    intro hp b hb hbk
    rcases List.mem_cons.mp hb with rfl | hb2
    · obtain ⟨hg, hfix⟩ := h1
      rw [hg.2.1] at hbk
      rw [hfix hbk]
      exact hp a1 (List.mem_cons_self a1 l1) hbk
    · exact ih (fun x hx hk => hp x (List.mem_cons_of_mem _ hx) hk) b hb2 hbk

theorem newSum_eq_allSum : ∀ {l : List Atom}, PortsEmpty l → newSum l = allSum l := by
  intro l
  induction l with
  | nil => intro _; rfl
  | cons a rest ih =>
    intro hp
    have hrest : PortsEmpty rest := fun x hx hk => hp x (List.mem_cons_of_mem _ hx) hk
    by_cases hk : a.kind = "G"
    · have hsz : atomSize a = 0 := by
        obtain ⟨h1, h2⟩ := hp a (List.mem_cons_self a rest) hk
        simp [atomSize, h1, h2]
      have hfalse : (!(a.kind == "G")) = false := by simp [hk]
      simp only [newSum, allSum, List.filter_cons, hfalse, List.map_cons, List.sum_cons,
        Bool.false_eq_true, if_false, hsz, Nat.zero_add]
      exact ih hrest
    · have htrue : (!(a.kind == "G")) = true := by simp [hk]
      simp only [newSum, allSum, List.filter_cons, htrue, List.map_cons, List.sum_cons,
        if_true]
      exact congrArg (atomSize a + ·) (ih hrest)

/-- The state transformer of one full round on the (atoms, cache) state; on
the paths the engine takes, roundOnce never errors and the error branch is
inert. -/
def roundAtoms (cat : Catalogue) (rm : RuleMap) (s : List Atom × NTMap) : List Atom × NTMap :=
  match roundOnce cat rm s.2 s.1 with
  | Except.ok p => (p.1, p.2.1)
  | Except.error _ => s

/-- k full rounds from a state. -/
def iterRound (cat : Catalogue) (rm : RuleMap) (s : List Atom × NTMap) :
    Nat → List Atom × NTMap
  | 0 => s
  | Nat.succ k => iterRound cat rm (roundAtoms cat rm s) k

theorem runRounds_spec (cat : Catalogue) (rm : RuleMap) (hcov : RmCovered cat rm) :
    ∀ (fuel : Nat) (atoms : List Atom) (m : NTMap), PortsEmpty atoms →
      ∃ k ws,
        k ≤ fuel ∧
        runRounds cat rm m atoms fuel
          = Except.ok ((iterRound cat rm (atoms, m) k).1, (iterRound cat rm (atoms, m) k).2, ws) ∧
        (∀ j, j + 1 < k →
          allSum (iterRound cat rm (atoms, m) j).1
            ≠ allSum (iterRound cat rm (atoms, m) (j + 1)).1) ∧
        (k < fuel → ∃ j, k = j + 1 ∧
          allSum (iterRound cat rm (atoms, m) j).1
            = allSum (iterRound cat rm (atoms, m) (j + 1)).1) ∧
        (Warning.maxIterReached ∈ ws ↔
          ∀ j, j < fuel →
            allSum (iterRound cat rm (atoms, m) j).1
              ≠ allSum (iterRound cat rm (atoms, m) (j + 1)).1) := by
  intro fuel
  induction fuel with
  | zero =>
    intro atoms m _
    refine ⟨0, [Warning.maxIterReached], Nat.le_refl 0, rfl, ?_, ?_, ?_⟩
    · intro j hj; omega
    · intro h; omega
    · constructor
      · intro _ j hj; omega
      · intro _; simp
  | succ fuel ih =>
    intro atoms m hp
    obtain ⟨p, hro⟩ := roundOnce_isOk hcov atoms m
    have hro2 : roundOnce cat rm m atoms = Except.ok (p.1, p.2.1, p.2.2) := by rw [hro]
    obtain ⟨hf2, hm2, hnw⟩ := roundOnce_ok_spec atoms m hro2
    have hround : roundAtoms cat rm (atoms, m) = (p.1, p.2.1) := by
      unfold roundAtoms
      rw [hro2]
    have hit1 : iterRound cat rm (atoms, m) 1 = (p.1, p.2.1) := by
      simp [iterRound, hround]
    have hshift : ∀ (s : List Atom × NTMap) (j : Nat),
        iterRound cat rm s (j + 1) = iterRound cat rm (roundAtoms cat rm s) j := by
      intro s j; rfl
    have hppres : PortsEmpty p.1 := portsEmpty_pres hf2 hp
    have hnew : newSum p.1 = allSum p.1 := newSum_eq_allSum hppres
    by_cases hconv : allSum atoms = allSum p.1
    · have hbeq : (allSum atoms == newSum p.1) = true := by
        rw [hnew]; exact beq_iff_eq.mpr hconv
      refine ⟨1, p.2.2, by omega, ?_, ?_, ?_, ?_⟩
      · simp only [runRounds, hro, hbeq, if_true, hit1]
      · intro j hj; omega
      · intro _
        refine ⟨0, rfl, ?_⟩
        show allSum (iterRound cat rm (atoms, m) 0).1 = allSum (iterRound cat rm (atoms, m) 1).1
        rw [hit1]
        exact hconv
      · constructor
        · intro habs; exact absurd habs hnw
        · intro hall
          have h0 := hall 0 (by omega)
          rw [hit1] at h0
          exact absurd hconv h0
    · have hbeq : (allSum atoms == newSum p.1) = false := by
        rw [hnew]
        exact beq_eq_false_iff_ne.mpr hconv
      obtain ⟨k', ws', hk', hrun', hne', hcvt', hiff'⟩ := ih p.1 p.2.1 hppres
      have hsh : ∀ j, iterRound cat rm (atoms, m) (j + 1) = iterRound cat rm (p.1, p.2.1) j := by
        intro j
        rw [hshift (atoms, m) j, hround]
      refine ⟨k' + 1, p.2.2 ++ ws', by omega, ?_, ?_, ?_, ?_⟩
      · simp only [runRounds, hro, hbeq, Bool.false_eq_true, if_false, hrun']
        rw [hsh k']
      · intro j hj
        cases j with
        | zero =>
          rw [hsh 0]
          show allSum atoms ≠ allSum p.1
          exact hconv
        | succ i =>
          rw [hsh i, hsh (i + 1)]
          exact hne' i (by omega)
      · intro hlt
        obtain ⟨j', hj'1, hj'2⟩ := hcvt' (by omega)
        refine ⟨j' + 1, by omega, ?_⟩
        rw [hsh j', hsh (j' + 1)]
        exact hj'2
      · rw [List.mem_append]
        constructor
        · rintro (habs | hws)
          · exact absurd habs hnw
          · intro j hj
            cases j with
            | zero =>
              rw [hsh 0]
              show allSum atoms ≠ allSum p.1
              exact hconv
            | succ i =>
              rw [hsh i, hsh (i + 1)]
              exact hiff'.mp hws i (by omega)
        · intro hall
          refine Or.inr (hiff'.mpr ?_)
          intro i hi
          have := hall (i + 1) (by omega)
          rw [hsh i, hsh (i + 1)] at this
          exact this

/-! ## Claim C1 -/

/-- C1: for every rule catalogue and every atom structure (ports carrying the
empty lists prepare gives them, and a rule map whose fetchable entries
resolve in the catalogue, as the global maps of the source guarantee), the
iteration loop halts within the 10-round cap: it runs some k of at most 10
rounds, every completed non-final round changed the sum over all atoms of
|whitelist| + |blacklist|, it stops early exactly when that sum is unchanged
across a full round, and it issues the maximum-iterations warning precisely
when all 10 rounds changed the sum, still returning the typing state of
round 10 in that case. -/
theorem c1_engine_termination (cat : Catalogue) (rm : RuleMap) (m : NTMap)
    (atoms : List Atom) (hcov : RmCovered cat rm) (hp : PortsEmpty atoms) :
    ∃ k ws,
      k ≤ 10 ∧
      runRounds cat rm m atoms 10
        = Except.ok ((iterRound cat rm (atoms, m) k).1, (iterRound cat rm (atoms, m) k).2, ws) ∧
      (∀ j, j + 1 < k →
        allSum (iterRound cat rm (atoms, m) j).1
          ≠ allSum (iterRound cat rm (atoms, m) (j + 1)).1) ∧
      (k < 10 → ∃ j, k = j + 1 ∧
        allSum (iterRound cat rm (atoms, m) j).1
          = allSum (iterRound cat rm (atoms, m) (j + 1)).1) ∧
      (Warning.maxIterReached ∈ ws ↔
        ∀ j, j < 10 →
          allSum (iterRound cat rm (atoms, m) j).1
            ≠ allSum (iterRound cat rm (atoms, m) (j + 1)).1) ∧
      (Warning.maxIterReached ∈ ws → k = 10) := by
  obtain ⟨k, ws, hk, hrun, hne, hcvt, hiff⟩ := runRounds_spec cat rm hcov 10 atoms m hp
  refine ⟨k, ws, hk, hrun, hne, hcvt, hiff, ?_⟩
  intro hmem
  by_contra hne10
  obtain ⟨j, hj1, hj2⟩ := hcvt (by omega)
  exact absurd hj2 (hiff.mp hmem j (by omega))

/-- Witness for C1 at a concrete input. -/
theorem c1_engine_termination_witness :
    ∃ p, runRounds [] [] []
        [{ aid := 0, kind := "C", neighbors := [], whitelist := some [], blacklist := some [] }] 10
      = Except.ok p := by
  have hcov : RmCovered [] [] := by
    intro k n rid hmem
    simp [rmRules, rmLookup] at hmem
  have hp : PortsEmpty
      [{ aid := 0, kind := "C", neighbors := [], whitelist := some [], blacklist := some [] }] := by
    intro a ha hk
    simp only [List.mem_singleton] at ha
    subst ha
    exact ⟨rfl, rfl⟩
  obtain ⟨k, ws, _, hrun, _⟩ := c1_engine_termination [] [] []
    [{ aid := 0, kind := "C", neighbors := [], whitelist := some [], blacklist := some [] }] hcov hp
  exact ⟨_, hrun⟩

/-! ## Claim C2 -/

theorem resolveFrom_length : ∀ (i0 : Nat) (atoms : List Atom),
    (resolveFrom i0 atoms).1.length = atoms.length := by
  intro i0 atoms
  induction atoms generalizing i0 with
  | nil => rfl
  | cons a rest ih => simp [resolveFrom, ih]

theorem resolveFrom_get : ∀ (atoms : List Atom) (i0 i : Nat) (h : i < atoms.length)
    (h2 : i < (resolveFrom i0 atoms).1.length),
    (resolveFrom i0 atoms).1.get ⟨i, h2⟩ = (resolveOne (i0 + i) (atoms.get ⟨i, h⟩)).1 := by
  intro atoms
  induction atoms with
  | nil => intro i0 i h h2; exact absurd h (Nat.not_lt_zero i)
  | cons a rest ih =>
    intro i0 i h h2
    cases i with
    | zero => simp [resolveFrom]
    | succ j =>
      have h3 : j < rest.length := Nat.lt_of_succ_lt_succ h
      have h4 : j < (resolveFrom (i0 + 1) rest).1.length := by
        rw [resolveFrom_length]
        exact h3
      have key := ih (i0 + 1) j h3 h4
      have harith : i0 + 1 + j = i0 + (j + 1) := by omega
      rw [harith] at key
      simpa [resolveFrom] using key

theorem resolveFrom_warn : ∀ (atoms : List Atom) (i0 i : Nat) (h : i < atoms.length),
    ∀ w ∈ (resolveOne (i0 + i) (atoms.get ⟨i, h⟩)).2, w ∈ (resolveFrom i0 atoms).2 := by
  intro atoms
  induction atoms with
  | nil => intro i0 i h; exact absurd h (Nat.not_lt_zero i)
  | cons a rest ih =>
    intro i0 i h w hw
    cases i with
    | zero =>
      simp only [resolveFrom, List.mem_append]
      exact Or.inl (by simpa using hw)
    | succ j =>
      have h3 : j < rest.length := Nat.lt_of_succ_lt_succ h
      have harith : i0 + (j + 1) = i0 + 1 + j := by omega
      rw [harith] at hw
      simp only [resolveFrom, List.mem_append]
      exact Or.inr (ih (i0 + 1) j h3 w (by simpa using hw))

theorem resolveOne_single {a : Atom} {x : String} (i : Nat)
    (h : osDiff (getWl a) (getBl a) = [x]) :
    resolveOne i a = ({ a with atomtype := some (AtomtypeVal.listOne x) }, []) := by
  unfold resolveOne
  rw [h]

theorem resolveOne_multi {a : Atom} (i : Nat)
    (h : (osDiff (getWl a) (getBl a)).length ≠ 1) :
    resolveOne i a
      = ({ a with atomtype := some (AtomtypeVal.commaJoined
            (joinComma (osDiff (getWl a) (getBl a)))) },
         [Warning.multipleOrNoTypes i a.kind (osDiff (getWl a) (getBl a))]) := by
  unfold resolveOne
  rcases hd : osDiff (getWl a) (getBl a) with _ | ⟨x, _ | ⟨y, t⟩⟩
  · rfl
  · exact absurd (by rw [hd]; rfl) h
  · rfl

/-- C2: after the iteration, the resolution loop computes, for the atom at
every index i, the difference whitelist - blacklist; a singleton remainder
is recorded as that atom's atomtype, and any other remainder draws the
warning carrying the atom's index, its kind and the full remainder, while
the loop still rewrites every atom (no abort). -/
theorem c2_resolution (atoms : List Atom) (i : Nat) (h : i < atoms.length) :
    (resolveFrom 0 atoms).1.length = atoms.length ∧
    (∀ x, osDiff (getWl (atoms.get ⟨i, h⟩)) (getBl (atoms.get ⟨i, h⟩)) = [x] →
      ∀ h2 : i < (resolveFrom 0 atoms).1.length,
        ((resolveFrom 0 atoms).1.get ⟨i, h2⟩).atomtype = some (AtomtypeVal.listOne x)) ∧
    ((osDiff (getWl (atoms.get ⟨i, h⟩)) (getBl (atoms.get ⟨i, h⟩))).length ≠ 1 →
      Warning.multipleOrNoTypes i (atoms.get ⟨i, h⟩).kind
          (osDiff (getWl (atoms.get ⟨i, h⟩)) (getBl (atoms.get ⟨i, h⟩)))
        ∈ (resolveFrom 0 atoms).2 ∧
      ∀ h2 : i < (resolveFrom 0 atoms).1.length,
        ((resolveFrom 0 atoms).1.get ⟨i, h2⟩).atomtype
          = some (AtomtypeVal.commaJoined (joinComma
              (osDiff (getWl (atoms.get ⟨i, h⟩)) (getBl (atoms.get ⟨i, h⟩)))))) := by
  refine ⟨resolveFrom_length 0 atoms, ?_, ?_⟩
  · intro x hx h2
    have hg := resolveFrom_get atoms 0 i h h2
    rw [Nat.zero_add] at hg
    rw [hg, resolveOne_single i hx]
  · intro hlen
    constructor
    · have hw := resolveFrom_warn atoms 0 i h
      rw [Nat.zero_add] at hw
      apply hw
      rw [resolveOne_multi i hlen]
      simp
    · intro h2
      have hg := resolveFrom_get atoms 0 i h h2
      rw [Nat.zero_add] at hg
      rw [hg, resolveOne_multi i hlen]

/-- Witness for C2 at a concrete input. -/
theorem c2_resolution_witness :
    (resolveFrom 0 [{ aid := 0, kind := "C", neighbors := [], whitelist := some ["135"], blacklist := some [] }]).1.length
      = [({ aid := 0, kind := "C", neighbors := [], whitelist := some ["135"], blacklist := some [] } : Atom)].length :=
  (c2_resolution _ 0 (by decide)).1

/-! ## Claim C3 -/

/-- C3: across one full round, every atom's whitelist and blacklist only
grow (the new list is the old one with entries appended), and running a rule
whose identifier is already in the atom's whitelist is a no-op: the atom and
the tally cache come back unchanged. -/
theorem c3_monotonicity_idempotence (cat : Catalogue) (rm : RuleMap) (m : NTMap)
    (atoms : List Atom) {res : List Atom} {m' : NTMap} {ws : List Warning}
    (h : roundOnce cat rm m atoms = Except.ok (res, m', ws)) :
    List.Forall₂ (fun a b => Grows (getWl a) (getWl b) ∧ Grows (getBl a) (getBl b)) atoms res ∧
    (∀ (m0 : NTMap) (a : Atom) (rid : String), rid ∈ getWl a →
      run_rule cat m0 a rid = Except.ok (a, m0)) := by
  obtain ⟨hf, _, _⟩ := roundOnce_ok_spec atoms m h
  constructor
  · refine List.Forall₂.imp ?_ hf
    intro a b hab
    exact ⟨hab.1.2.2.2.1, hab.1.2.2.2.2⟩
  · intro m0 a rid hmem
    exact run_rule_mem_whitelist hmem

/-- Witness for C3 at a concrete input. -/
theorem c3_monotonicity_idempotence_witness :
    List.Forall₂ (fun a b => Grows (getWl a) (getWl b) ∧ Grows (getBl a) (getBl b))
        [({ aid := 0, kind := "G", neighbors := [] } : Atom)]
        [({ aid := 0, kind := "G", neighbors := [] } : Atom)] ∧
    (∀ (m0 : NTMap) (a : Atom) (rid : String), rid ∈ getWl a →
      run_rule [] m0 a rid = Except.ok (a, m0)) :=
  c3_monotonicity_idempotence [] [] [] [{ aid := 0, kind := "G", neighbors := [] }] rfl

/-! ## Claim C4 -/

/-- C4 as amended: the iteration loop does skip ports (kind G) without
applying any rule and without any coverage warning, but the engine still
allocates whitelist/blacklist state for them (prepare runs on every yielded
atom), and the resolution loop, which does not skip ports, still warns
about them with an empty remainder. -/
theorem c4_ports_allocated (cat : Catalogue) (rm : RuleMap) (m : NTMap) (a : Atom)
    (i : Nat) (h : a.kind = "G") :
    processAtom cat rm m a = Except.ok (a, m, []) ∧
    (prepare a).whitelist = some [] ∧
    (prepare a).blacklist = some [] ∧
    (getWl a = [] →
      resolveOne i a
        = ({ a with atomtype := some (AtomtypeVal.commaJoined "") },
           [Warning.multipleOrNoTypes i "G" []])) := by
  refine ⟨?_, rfl, rfl, ?_⟩
  · have hb : (a.kind == "G") = true := by simp [h]
    unfold processAtom
    rw [if_pos hb]
  · intro hwl
    have hd : osDiff (getWl a) (getBl a) = [] := by rw [hwl]; rfl
    have := resolveOne_multi i (a := a) (by rw [hd]; simp)
    rw [hd] at this
    rw [this, h]
    rfl

/-- Witness for C4 at a concrete input. -/
theorem c4_ports_allocated_witness :
    processAtom [] [] [] { aid := 0, kind := "G", neighbors := [] }
      = Except.ok ({ aid := 0, kind := "G", neighbors := [] }, [], []) :=
  (c4_ports_allocated [] [] [] { aid := 0, kind := "G", neighbors := [] } 0 rfl).1

/-- C4 counterexample: running find_atomtypes on a single port atom leaves
the port with allocated (empty) whitelist and blacklist slots and emits the
resolution warning about it, contradicting the claim that ports are never
allocated state and never warned about. -/
theorem c4_counterexample :
    find_atomtypes "OPLS-AA" [] [] [] [] [{ aid := 0, kind := "G", neighbors := [] }] true
      = Except.ok
          ([{ aid := 0, kind := "G", neighbors := [], whitelist := some [],
              blacklist := some [], atomtype := some (AtomtypeVal.commaJoined "") }],
           [], [Warning.multipleOrNoTypes 0 "G" []]) := by
  rfl

/-! ## Claim C5 -/

/-- How many buckets of a neighbor-count level hold a rule number. -/
def bucketCount (b : List (Option Nat × List String)) (rid : String) : Nat :=
  (b.map (fun e => e.2.count rid)).sum

/-- How many times a rule number occurs across the whole index. -/
def rmCount (rm : RuleMap) (rid : String) : Nat :=
  (rm.map (fun e => bucketCount e.2 rid)).sum

/-- How many catalogue entries carry a rule number. -/
def catCount (cat : Catalogue) (rid : String) : Nat :=
  (cat.map Prod.fst).count rid

theorem bucketGetD_cons (k0 : Option Nat) (rs : List String)
    (rest : List (Option Nat × List String)) (n : Nat) :
    (bucketLookup ((k0, rs) :: rest) (some n)).getD []
      = if (k0 == some n) = true then rs else (bucketLookup rest (some n)).getD [] := by
  by_cases hk : (k0 == some n) = true
  · simp [bucketLookup, hk]
  · simp [bucketLookup, hk]

theorem rmRules_cons (k0 : Option String) (b : List (Option Nat × List String))
    (rest : RuleMap) (k : String) (n : Nat) :
    rmRules ((k0, b) :: rest) k n
      = if (k0 == some k) = true then (bucketLookup b (some n)).getD []
        else rmRules rest k n := by
  by_cases hk : (k0 == some k) = true
  · simp [rmRules, rmLookup, hk]
  · simp [rmRules, rmLookup, hk]

theorem if_beq_eq (rn rid : String) :
    (if (rn == rid) = true then 1 else 0) = (if rn = rid then 1 else 0) := by
  by_cases hr : rn = rid
  · simp [hr]
  · simp [hr, beq_eq_false_iff_ne.mpr hr]

theorem bucketCount_bucketAdd (b : List (Option Nat × List String)) (nc : Option Nat)
    (rn rid : String) :
    bucketCount (bucketAdd b nc rn) rid = bucketCount b rid + (if rn = rid then 1 else 0) := by
  induction b with
  | nil =>
    simp only [bucketAdd, bucketCount, List.map_cons, List.map_nil, List.sum_cons,
      List.sum_nil, List.count_singleton, List.count_nil, if_beq_eq]
    omega
  | cons kv rest ih =>
    obtain ⟨k, rs⟩ := kv
    simp only [bucketAdd]
    split
    · simp only [bucketCount, List.map_cons, List.sum_cons, List.count_append,
        List.count_singleton, if_beq_eq]
      omega
    · show List.count rid rs + bucketCount (bucketAdd rest nc rn) rid
          = List.count rid rs + bucketCount rest rid + (if rn = rid then 1 else 0)
      rw [ih]
      omega

theorem rmCount_rmAdd (rm : RuleMap) (et : Option String) (nc : Option Nat)
    (rn rid : String) :
    rmCount (rmAdd rm et nc rn) rid = rmCount rm rid + (if rn = rid then 1 else 0) := by
  induction rm with
  | nil =>
    simp only [rmAdd, rmCount, List.map_cons, List.map_nil, List.sum_cons, List.sum_nil,
      bucketCount, List.count_singleton, if_beq_eq]
    omega
  | cons kv rest ih =>
    obtain ⟨k, b⟩ := kv
    simp only [rmAdd]
    split
    · simp only [rmCount, List.map_cons, List.sum_cons]
      rw [bucketCount_bucketAdd]
      omega
    · show bucketCount b rid + rmCount (rmAdd rest et nc rn) rid
          = bucketCount b rid + rmCount rest rid + (if rn = rid then 1 else 0)
      rw [ih]
      omega

theorem mem_bucket_bucketAdd {b : List (Option Nat × List String)} {nc : Option Nat}
    {rn rid : String} {n : Nat}
    (h : rid ∈ (bucketLookup (bucketAdd b nc rn) (some n)).getD []) :
    rid ∈ (bucketLookup b (some n)).getD [] ∨ (rid = rn ∧ nc = some n) := by
  induction b with
  | nil =>
    rw [show bucketAdd [] nc rn = [(nc, [rn])] from rfl, bucketGetD_cons] at h
    by_cases hk : (nc == some n) = true
    · rw [if_pos hk] at h
      simp only [List.mem_singleton] at h
      exact Or.inr ⟨h, beq_iff_eq.mp hk⟩
    · rw [if_neg hk] at h
      simp [bucketLookup] at h
  | cons kv rest ih =>
    obtain ⟨k, rs⟩ := kv
    simp only [bucketAdd] at h
    by_cases hkn : (k == nc) = true
    · rw [if_pos hkn, bucketGetD_cons] at h
      rw [bucketGetD_cons]
      by_cases hks : (k == some n) = true
      · rw [if_pos hks] at h ⊢
        simp only [List.mem_append, List.mem_singleton] at h
        rcases h with h | h
        · exact Or.inl h
        · have hn : nc = some n := by
            rw [← beq_iff_eq.mp hkn]
            exact beq_iff_eq.mp hks
          exact Or.inr ⟨h, hn⟩
      · rw [if_neg hks] at h ⊢
        exact Or.inl h
    · rw [if_neg hkn, bucketGetD_cons] at h
      rw [bucketGetD_cons]
      by_cases hks : (k == some n) = true
      · rw [if_pos hks] at h ⊢
        exact Or.inl h
      · rw [if_neg hks] at h ⊢
        exact ih h

theorem mem_rmRules_rmAdd {rm : RuleMap} {et : Option String} {nc : Option Nat}
    {rn rid : String} {k : String} {n : Nat}
    (h : rid ∈ rmRules (rmAdd rm et nc rn) k n) :
    rid ∈ rmRules rm k n ∨ (rid = rn ∧ et = some k ∧ nc = some n) := by
  induction rm with
  | nil =>
    rw [show rmAdd [] et nc rn = [(et, [(nc, [rn])])] from rfl, rmRules_cons] at h
    by_cases hk : (et == some k) = true
    · rw [if_pos hk] at h
      rcases mem_bucket_bucketAdd (b := []) (n := n) (by simpa [bucketAdd] using h)
          with h2 | h2
      · simp [bucketLookup] at h2
      · exact Or.inr ⟨h2.1, beq_iff_eq.mp hk, h2.2⟩
    · rw [if_neg hk] at h
      simp [rmRules, rmLookup] at h
  | cons kv rest ih =>
    obtain ⟨k0, b⟩ := kv
    simp only [rmAdd] at h
    by_cases hke : (k0 == et) = true
    · rw [if_pos hke, rmRules_cons] at h
      rw [rmRules_cons]
      by_cases hks : (k0 == some k) = true
      · rw [if_pos hks] at h ⊢
        rcases mem_bucket_bucketAdd h with h2 | h2
        · exact Or.inl h2
        · have he : et = some k := by
            rw [← beq_iff_eq.mp hke]
            exact beq_iff_eq.mp hks
          exact Or.inr ⟨h2.1, he, h2.2⟩
      · rw [if_neg hks] at h ⊢
        exact Or.inl h
    · rw [if_neg hke, rmRules_cons] at h
      rw [rmRules_cons]
      by_cases hks : (k0 == some k) = true
      · rw [if_pos hks] at h ⊢
        exact Or.inl h
      · rw [if_neg hks] at h ⊢
        exact ih h

/-- C5 as amended: build_rule_map reports a configuration warning (without
raising) for every rule whose element guard or neighbor count is falsy, but
it does not exclude such a rule: every catalogue entry is appended to
exactly one (element type, neighbor count) bucket (the count equation), and
the falsy guard becomes a None key; since the engine looks buckets up under
some-keys built from a real atom kind and neighbor count, only rules whose
declared guards match exactly (or entries pre-existing in the global map)
can ever be fetched. -/
theorem c5_registry (rm0 : RuleMap) (cat : Catalogue) :
    (∀ rn r, (rn, r) ∈ cat → etFalsy (guardsOf r).1 = true →
      Warning.ruleNoElement rn ∈ (build_rule_map rm0 cat).2) ∧
    (∀ rn r, (rn, r) ∈ cat → ncFalsy (guardsOf r).2 = true →
      Warning.ruleNoNeighborCount rn ∈ (build_rule_map rm0 cat).2) ∧
    (∀ rid, rmCount (build_rule_map rm0 cat).1 rid = rmCount rm0 rid + catCount cat rid) ∧
    (∀ k n rid, rid ∈ rmRules (build_rule_map rm0 cat).1 k n →
      rid ∈ rmRules rm0 k n ∨ ∃ r, (rid, r) ∈ cat ∧ guardsOf r = (some k, some n)) := by
  induction cat generalizing rm0 with
  | nil =>
    refine ⟨?_, ?_, ?_, ?_⟩
    · intro rn r hmem
      simp at hmem
    · intro rn r hmem
      simp at hmem
    · intro rid
      simp [build_rule_map, catCount]
    · intro k n rid h
      exact Or.inl h
  | cons hd rest ih =>
    obtain ⟨rn0, r0⟩ := hd
    obtain ⟨ih1, ih2, ih3, ih4⟩ := ih (rmAdd rm0 (guardsOf r0).1 (guardsOf r0).2 rn0)
    refine ⟨?_, ?_, ?_, ?_⟩
    · intro rn r hmem hfal
      rcases List.mem_cons.mp hmem with heq | hmem2
      · obtain ⟨h1, h2⟩ := Prod.mk.injEq .. ▸ heq
        subst h1
        subst h2
        simp only [build_rule_map, List.mem_append]
        refine Or.inl ?_
        rw [hfal]
        split
        · simp
        · simp
      · simp only [build_rule_map, List.mem_append]
        exact Or.inr (ih1 rn r hmem2 hfal)
    · intro rn r hmem hfal
      rcases List.mem_cons.mp hmem with heq | hmem2
      · obtain ⟨h1, h2⟩ := Prod.mk.injEq .. ▸ heq
        subst h1
        subst h2
        simp only [build_rule_map, List.mem_append]
        refine Or.inl ?_
        rw [hfal]
        simp
      · simp only [build_rule_map, List.mem_append]
        exact Or.inr (ih2 rn r hmem2 hfal)
    · intro rid
      simp only [build_rule_map]
      rw [ih3 rid, rmCount_rmAdd]
      simp only [catCount, List.map_cons, List.count_cons, if_beq_eq]
      omega
    · intro k n rid h
      simp only [build_rule_map] at h
      rcases ih4 k n rid h with h2 | h2
      · rcases mem_rmRules_rmAdd h2 with h3 | h3
        · exact Or.inl h3
        · refine Or.inr ⟨r0, ?_, ?_⟩
          · rw [h3.1]
            exact List.mem_cons_self _ _
          · exact Prod.ext h3.2.1 h3.2.2
      · obtain ⟨r, hmem, hg⟩ := h2
        exact Or.inr ⟨r, List.mem_cons_of_mem _ hmem, hg⟩

/-- C5 counterexample: a rule with no element guard draws the warning but is
still indexed (under the None element key), contradicting the claim that it
is excluded from the index. -/
theorem c5_counterexample :
    build_rule_map [] [("9", ⟨[Dec.neighborCount 2, Dec.whitelistEff ["9"]], fun _ => true⟩)]
      = ([(none, [(some 2, ["9"])])], [Warning.ruleNoElement "9"]) := by
  rfl

/-! ## Claim C6 -/

/-- C6 as amended: find_atomtypes has no unsupported-force-field failure: an
identifier other than OPLS-AA simply skips the catalogue load, and the run
proceeds on the previously registered globals. -/
theorem c6_unknown_forcefield (forcefield : String) (oplsaa cat0 : Catalogue)
    (rm0 : RuleMap) (m0 : NTMap) (atoms : List Atom) (debug : Bool)
    (h : forcefield ≠ "OPLS-AA") :
    find_atomtypes forcefield oplsaa cat0 rm0 m0 atoms debug
      = typingPipeline cat0 rm0 m0 atoms debug := by
  unfold find_atomtypes
  have hb : (forcefield == "OPLS-AA") = false := beq_eq_false_iff_ne.mpr h
  rw [hb]
  rfl

/-- Witness for C6 at a concrete input. -/
theorem c6_unknown_forcefield_witness :
    find_atomtypes "TRAPPE" [] [] [] [] [] false = typingPipeline [] [] [] [] false :=
  c6_unknown_forcefield "TRAPPE" [] [] [] [] [] false (by decide)

/-- C6 counterexample: an unrecognized force-field identifier does not fail
the run: the engine proceeds with the (empty) pre-existing catalogue,
returns a typing result, and only issues coverage and resolution
warnings. -/
theorem c6_counterexample :
    find_atomtypes "TRAPPE" [] [] [] [] [{ aid := 1, kind := "C", neighbors := [] }] false
      = Except.ok
          ([{ aid := 1, kind := "C", neighbors := [], whitelist := some [],
              blacklist := some [], atomtype := some (AtomtypeVal.commaJoined "") }],
           [], [Warning.noRuleForKind "C", Warning.multipleOrNoTypes 0 "C" []]) := by
  rfl

/-! ## Claim C7 -/

/-- C7 as amended: a rule carrying two guards of the same kind is detected
at consistency-analysis time, but through an assertion that raises and
aborts the whole analysis (the error outcome), whatever rules follow in the
catalogue; the offending rule is not excluded and no analysis of the
remaining rules happens. -/
theorem c7_duplicate_guard_fatal (rn t1 t2 : String) (ds : List Dec) (base : Atom → Bool)
    (rest : Catalogue) :
    sanitize ((rn, ⟨Dec.element t1 :: Dec.element t2 :: ds, base⟩) :: rest)
      = Except.error ("Duplicate element type decorators on rule " ++ rn) ∧
    sanitize [("7", ⟨[Dec.element "C", Dec.neighborCount 1, Dec.neighborCount 2], fun _ => true⟩)]
      = Except.error "Duplicate neighbor count decorators on rule 7" := by
  exact ⟨rfl, rfl⟩

/-- C7 counterexample: with a duplicate-element rule first and a healthy
rule after it, the analysis aborts with the assertion error instead of
excluding the offending rule and continuing. -/
theorem c7_counterexample :
    sanitize
        [("7", ⟨[Dec.element "C", Dec.element "N", Dec.neighborCount 4], fun _ => true⟩),
         ("1", ⟨[Dec.element "C", Dec.neighborCount 1, Dec.whitelistEff ["1"]], fun _ => true⟩)]
      = Except.error "Duplicate element type decorators on rule 7" := by
  rfl

/-! ## Claim C8 -/

/-- The three-rule group of the claim: rule 1 and rule 3 blacklist rule 2,
rule 2 blacklists nothing; all three match element C with one neighbor. -/
def c8cat3 : Catalogue :=
  [("1", ⟨[Dec.element "C", Dec.neighborCount 1, Dec.whitelistEff ["1"],
      Dec.blacklistEff ["2"]], fun _ => true⟩),
   ("2", ⟨[Dec.element "C", Dec.neighborCount 1, Dec.whitelistEff ["2"]], fun _ => true⟩),
   ("3", ⟨[Dec.element "C", Dec.neighborCount 1, Dec.whitelistEff ["3"],
      Dec.blacklistEff ["2"]], fun _ => true⟩)]

/-- The same group extended with rule 4, which also matches the pattern and
blacklists nothing. -/
def c8cat4 : Catalogue :=
  [("1", ⟨[Dec.element "C", Dec.neighborCount 1, Dec.whitelistEff ["1"],
      Dec.blacklistEff ["2"]], fun _ => true⟩),
   ("2", ⟨[Dec.element "C", Dec.neighborCount 1, Dec.whitelistEff ["2"]], fun _ => true⟩),
   ("3", ⟨[Dec.element "C", Dec.neighborCount 1, Dec.whitelistEff ["3"],
      Dec.blacklistEff ["2"]], fun _ => true⟩),
   ("4", ⟨[Dec.element "C", Dec.neighborCount 1, Dec.whitelistEff ["4"]], fun _ => true⟩)]

/-- C8 as amended: for the three-rule group the analyzer finds exactly one
sink (rule 2) and raises no flag; adding rule 4 leaves the analysis
unchanged, because a rule that blacklists nothing and is blacklisted by
nobody never becomes a node of the interaction graph: the sinks are still
exactly rule 2 and no multiple-sinks flag is raised. -/
theorem c8_single_sink :
    buildMatches c8cat3 ["C"] [] = Except.ok [((some "C", ["C"]), ["1", "2", "3"])] ∧
    groupEdges c8cat3 ["1", "2", "3"] = [("1", "2"), ("3", "2")] ∧
    groupSinks (groupEdges c8cat3 ["1", "2", "3"]) = ["2"] ∧
    sanitize c8cat3 = Except.ok [] ∧
    buildMatches c8cat4 ["C"] [] = Except.ok [((some "C", ["C"]), ["1", "2", "3", "4"])] ∧
    "4" ∉ nodesOfEdges (groupEdges c8cat4 ["1", "2", "3", "4"]) ∧
    groupSinks (groupEdges c8cat4 ["1", "2", "3", "4"]) = ["2"] := by
  exact ⟨rfl, rfl, rfl, rfl, rfl, by decide, rfl⟩

/-- C8 counterexample: with rule 4 added, the analyzer emits no warning at
all — in particular no multiple-sinks flag — and the sink list of the group
still has length one, contradicting the claim that the fourth sink-free
rule triggers a multiple-sinks flag. -/
theorem c8_counterexample :
    sanitize c8cat4 = Except.ok [] ∧
    (groupSinks (groupEdges c8cat4 ["1", "2", "3", "4"])).length = 1 := by
  exact ⟨rfl, rfl⟩

/-! ## Claim C9 -/

theorem ntLookup_append_self {m : NTMap} {aid : Nat} (t : List (String × Nat))
    (h : ntLookup m aid = none) : ntLookup (m ++ [(aid, t)]) aid = some t := by
  induction m with
  | nil => simp [ntLookup]
  | cons kv rest ih =>
    obtain ⟨k, v⟩ := kv
    simp only [ntLookup, List.cons_append] at h ⊢
    split at h
    · exact absurd h (by simp)
    · next hk =>
      rw [if_neg hk]
      exact ih h

/-- C9 as amended: for each atom the tally is computed once from the bonds,
cached in the module-level neighbor_types_map and reused by every later
guard evaluation for that atom; but the map only ever grows — nothing in
the module removes entries — so a later call for the same atom with
different bonds still returns the cached tally (it never recomputes). -/
theorem c9_tally_cache (m : NTMap) (aid : Nat) (bonds bonds2 : List String) :
    (ntLookup m aid = none →
      neighbor_types m aid bonds = (computeTally bonds, m ++ [(aid, computeTally bonds)])) ∧
    (∀ t0, ntLookup m aid = some t0 → neighbor_types m aid bonds = (t0, m)) ∧
    (neighbor_types (neighbor_types m aid bonds).2 aid bonds2
      = ((neighbor_types m aid bonds).1, (neighbor_types m aid bonds).2)) ∧
    MGrows m (neighbor_types m aid bonds).2 := by
  refine ⟨?_, ?_, ?_, mGrows_neighbor_types m aid bonds⟩
  · intro h
    unfold neighbor_types
    rw [h]
  · intro t0 h
    unfold neighbor_types
    rw [h]
  · rcases hl : ntLookup m aid with _ | t0
    · have h1 : neighbor_types m aid bonds
          = (computeTally bonds, m ++ [(aid, computeTally bonds)]) := by
        unfold neighbor_types
        rw [hl]
      rw [h1]
      unfold neighbor_types
      rw [ntLookup_append_self (computeTally bonds) hl]
    · have h1 : neighbor_types m aid bonds = (t0, m) := by
        unfold neighbor_types
        rw [hl]
      rw [h1]
      unfold neighbor_types
      rw [hl]

/-- C9 counterexample: fill the cache for atom 0 from two carbon bonds, then
query the same atom with a single hydrogen bond: the stale carbon tally
comes back, the map is unchanged, and the fresh tally would have been
different — so a later run with different bonds does observe a stale
tally. -/
theorem c9_counterexample :
    neighbor_types (neighbor_types [] 0 ["C", "C"]).2 0 ["H"]
      = ([("C", 2)], [(0, [("C", 2)])]) ∧
    computeTally ["H"] = [("H", 1)] ∧
    ([("C", 2)] : List (String × Nat)) ≠ [("H", 1)] := by
  refine ⟨rfl, rfl, by decide⟩

/-! ## Claim C10 -/

theorem mem_foldl_osAdd_ridStr (l : List RuleId) :
    ∀ (s : List String) (y : String),
      (y ∈ l.foldl (fun acc r => osAdd acc (ridStr r)) s ↔ y ∈ s ∨ ∃ r ∈ l, ridStr r = y) := by
  induction l with
  | nil =>
    intro s y
    simp
  | cons r rest ih =>
    intro s y
    rw [List.foldl_cons, ih (osAdd s (ridStr r)) y, mem_osAdd]
    constructor
    · rintro ((hy | hy) | ⟨r2, hr2, hy⟩)
      · exact Or.inl hy
      · exact Or.inr ⟨r, List.mem_cons_self r rest, hy.symm⟩
      · exact Or.inr ⟨r2, List.mem_cons_of_mem r hr2, hy⟩
    · rintro (hy | ⟨r2, hr2, hy⟩)
      · exact Or.inl (Or.inl hy)
      · rcases List.mem_cons.mp hr2 with rfl | hr2b
        · exact Or.inl (Or.inr hy.symm)
        · exact Or.inr ⟨r2, hr2b, hy⟩

/-- C10: for every atom and every input (a single identifier or a
collection of them), check_atom returns True exactly when one of the
identifiers, converted to a string, is in the atom's whitelist, and
otherwise returns None — it never returns an explicit False. -/
theorem c10_check_atom (a : Atom) (input : RuleIdInput) :
    (check_atom a input = some true ∨ check_atom a input = none) ∧
    (check_atom a input = some true ↔ ∃ r ∈ inputIds input, ridStr r ∈ getWl a) ∧
    check_atom a input ≠ some false := by
  unfold check_atom
  by_cases hb :
      ((inputIds input).foldl (fun s r => osAdd s (ridStr r)) []).any
        (fun r => (getWl a).contains r) = true
  · rw [if_pos hb]
    refine ⟨Or.inl rfl, ⟨fun _ => ?_, fun _ => rfl⟩, by simp⟩
    obtain ⟨x, hx, hcont⟩ := List.any_eq_true.mp hb
    rcases (mem_foldl_osAdd_ridStr (inputIds input) [] x).mp hx with hfalse | ⟨r, hr, hry⟩
    · exact absurd hfalse (List.not_mem_nil x)
    · refine ⟨r, hr, ?_⟩
      rw [hry]
      exact List.elem_iff.mp hcont
  · rw [if_neg hb]
    refine ⟨Or.inr rfl, ⟨fun habs => absurd habs (by simp), fun hex => ?_⟩, by simp⟩
    obtain ⟨r, hr, hmem⟩ := hex
    refine absurd (List.any_eq_true.mpr ⟨ridStr r, ?_, ?_⟩) hb
    · exact (mem_foldl_osAdd_ridStr (inputIds input) [] (ridStr r)).mpr
        (Or.inr ⟨r, hr, rfl⟩)
    · exact List.elem_iff.mpr hmem

end MosdefAtomtyper
